import Mathlib

/-!
# Verification of `fatiando.inv.gsolvers` (linsolver / marq)

Shallow embedding of `src/fatiando/inv/gsolvers.py` — a linear least-squares
solver (`linsolver`) and a Levenberg–Marquardt iterative solver (`marq`) —
over exact rational arithmetic.  Vectors are `List ℚ`, matrices are row-major
`List (List ℚ)`.  The numpy primitives the code calls (`dot`, `.T`,
`.diagonal()`, broadcasting `matrix + vector`, `numpy.linalg.solve`,
`numpy.linalg.norm(x)**2`) are embedded below; `numpy.linalg.solve` is
embedded as exact Gaussian elimination returning `none` on a singular system
(numpy raises `LinAlgError` there), so fallible solves propagate through
`Option`.
-/

namespace GSolvers

abbrev Vec := List ℚ
abbrev Mat := List (List ℚ)

/-- Dot product of two vectors (`numpy.dot` on 1-D arrays). -/
def dotList (a b : Vec) : ℚ := (List.zipWith (· * ·) a b).sum

/-- Matrix transpose (`ndarray.T`).  Row-major; the column count is read off
the first row (adequate for the non-empty matrices the claims involve). -/
def transpose (A : Mat) : Mat :=
  match A with
  | [] => []
  | row :: _ => (List.range row.length).map (fun j => A.map (fun r => r.getD j 0))

/-- Matrix–vector product (`numpy.dot(A, v)`). -/
def matVec (A : Mat) (v : Vec) : Vec := A.map (fun row => dotList row v)

/-- Matrix–matrix product (`numpy.dot(A, B)`). -/
def matMul (A B : Mat) : Mat :=
  A.map (fun row => (transpose B).map (fun col => dotList row col))

/-- Vector subtraction (`x - y` on equally-shaped 1-D arrays). -/
def vecSub (a b : Vec) : Vec := List.zipWith (· - ·) a b

/-- Vector addition (`x + y` on equally-shaped 1-D arrays). -/
def vecAdd (a b : Vec) : Vec := List.zipWith (· + ·) a b

/-- Scalar times vector (`c * v`). -/
def scalMulVec (c : ℚ) (v : Vec) : Vec := v.map (fun x => c * x)

/-- `numpy.linalg.norm(v)**2`: the sum of the squared entries
(exact-arithmetic reading of norm-then-square). -/
def sqnorm (v : Vec) : ℚ := (v.map (fun x => x * x)).sum

/-- `hessian.diagonal()`: the 1-D array of diagonal entries `A[i][i]`. -/
def diagVec (A : Mat) : Vec := A.enum.map (fun p => p.2.getD p.1 0)

/-- Numpy broadcasting `A + v` for a 2-D array `A` and 1-D array `v`:
`v` is added to every row, i.e. `(A + v)[i][j] = A[i][j] + v[j]`. -/
def addRowBroadcast (A : Mat) (v : Vec) : Mat :=
  A.map (fun row => List.zipWith (· + ·) row v)

/-- The damped system matrix actually built by the source at
`gsolvers.py:94`: `hessian + lm_param*hessian_diag`, where `hessian_diag`
is the 1-D diagonal array, so numpy broadcasting adds
`lm_param * hessian[j][j]` to **every** entry of column `j`. -/
def dampedHessian (hessian : Mat) (hessian_diag : Vec) (lm_param : ℚ) : Mat :=
  addRowBroadcast hessian (scalMulVec lm_param hessian_diag)

/-- The damped system matrix as the spec words it: `H + λ·diag(H)` with
`diag(H)` the diagonal **matrix** built from `H`'s diagonal — diagonal
entries become `H[i][i]·(1+λ)`, off-diagonal entries stay `H[i][j]`. -/
def specDampedHessian (H : Mat) (lm : ℚ) : Mat :=
  H.enum.map (fun p =>
    p.2.enum.map (fun q => if p.1 = q.1 then q.2 + lm * q.2 else q.2))

/-! ## Exact linear solve (`numpy.linalg.solve`) -/

/-- Find a row whose leading entry is nonzero; return it together with the
remaining rows (order of the rest preserved).  `none` when every leading
entry is zero — the singular case. -/
def pivotRows (rows : List Vec) : Option (Vec × List Vec) :=
  match rows with
  | [] => none
  | r :: rs =>
    if r.headD 0 ≠ 0 then some (r, rs)
    else
      match pivotRows rs with
      | none => none
      | some (p, rest) => some (p, r :: rest)

/-- Eliminate the leading column of row `r` using pivot row `p`
(whose leading entry is nonzero), and drop that column. -/
def elimStep (p r : Vec) : Vec :=
  (List.zipWith (fun x y => x - (r.headD 0 / p.headD 0) * y) r p).tail

/-- Gaussian elimination with back substitution on an augmented system of
`n` unknowns (each row = coefficients ++ [rhs]).  Returns `none` exactly
when some elimination stage finds no nonzero pivot (singular system). -/
def gaussSolve : Nat → List Vec → Option Vec
  | 0, _ => some []
  | n + 1, rows =>
    match pivotRows rows with
    | none => none
    | some (p, rest) =>
      match gaussSolve n (rest.map (elimStep p)) with
      | none => none
      | some xs =>
        let ps := p.tail
        some ((ps.getLastD 0 - dotList ps.dropLast xs) / p.headD 0 :: xs)

/-- `numpy.linalg.solve(A, b)` for a square system: `none` models the
`LinAlgError` raised on a singular matrix. -/
def linsys_solver (A : Mat) (b : Vec) : Option Vec :=
  gaussSolve A.length (List.zipWith (fun row x => row ++ [x]) A b)

/-- The all-zero N×M Jacobian (`numpy.zeros((N, M))`). -/
def zeroMat (N M : Nat) : Mat := List.replicate N (List.replicate M 0)

/-! ## Regularization bundle defaulting (`gsolvers.py:56-59`, `71-74`) -/

/-- The no-op regularization norm the source installs: `lambda x: 0`. -/
def noRegNorm : Vec → ℚ := fun _ => 0

/-- The no-op gradient contribution: `lambda x, g: g`.  The first argument
is `Option Vec` because the source passes `None` in `linsolver` and a
parameter vector in `marq`. -/
def noRegGrad : Option Vec → Vec → Vec := fun _ g => g

/-- The no-op Hessian contribution: `lambda x, h: h`. -/
def noRegHess : Option Vec → Mat → Mat := fun _ h => h

/-- `if reg_norm is None or reg_grad is None or reg_hess is None:` replace
all three by the no-ops; otherwise use the supplied callbacks. -/
def defaultRegs (rn : Option (Vec → ℚ)) (rg : Option (Option Vec → Vec → Vec))
    (rh : Option (Option Vec → Mat → Mat)) :
    (Vec → ℚ) × (Option Vec → Vec → Vec) × (Option Vec → Mat → Mat) :=
  match rn, rg, rh with
  | some n, some g, some h => (n, g, h)
  | _, _, _ => (noRegNorm, noRegGrad, noRegHess)

/-! ## `linsolver` (`gsolvers.py:53-63`) -/

structure LinResult where
  estimate : Vec
  residuals : Vec
deriving DecidableEq

/-- Embedding of `linsolver`: fold the (possibly defaulted) regularization
Hessian into `jac.T·jac`, solve the normal equations once, and recompute
residuals; a singular system propagates as `none`. -/
def linsolver (data : Vec) (func : Vec → Vec) (jac : Mat)
    (reg_norm : Option (Vec → ℚ)) (reg_grad : Option (Option Vec → Vec → Vec))
    (reg_hess : Option (Option Vec → Mat → Mat)) : Option LinResult :=
  let regs := defaultRegs reg_norm reg_grad reg_hess
  let hessian := regs.2.2 none (matMul (transpose jac) jac)
  match linsys_solver hessian (matVec (transpose jac) data) with
  | none => none
  | some estimate => some ⟨estimate, vecSub data (func estimate)⟩

/-! ## `marq` (`gsolvers.py:67-120`)

The mutable loop state of the Python code is threaded explicitly.  Besides
the state the source manipulates, the loops carry *ghost* observations that
do not influence the computation: the inner loop additionally returns the
list of values `lm_param` holds after each attempt, and the outer loop
additionally returns the count of accepted iterations, whether the run
ended on the stagnation branch, and the concatenated `lm_param` trace.
`marq` itself projects the ghost data away, returning exactly the
dictionary the source returns. -/

/-- Lower guard `10**(-10)` on `lm_param` (`gsolvers.py:102`). -/
def lmLow : ℚ := 1 / 10 ^ (10 : ℕ)

/-- Upper guard `10**10` on `lm_param` (`gsolvers.py:108`). -/
def lmHigh : ℚ := 10 ^ (10 : ℕ)

/-- A Python 2 number, as the source manipulates the damping parameter:
its exact value together with whether it is an `int`.  The source is
Python 2 (`xrange`, no future-division import) and the defaults are the
ints `lmstart=100`, `lmstep=10`, so `lm_param /= lmstep` floor-divides in
ordinary default runs (`100 → 10 → 1 → 0`).  Float arithmetic is
idealized as exact. -/
structure PyNum where
  val : ℚ
  isInt : Bool
deriving DecidableEq

/-- Python 2 division, as in `lm_param /= lmstep`: floor division when
both operands are ints (a `ZeroDivisionError` divisor is idealized as
producing 0, unreachable under the `lmstep ≥ 1` hypotheses used below),
exact division otherwise. -/
def pyDiv (a b : PyNum) : PyNum :=
  if a.isInt && b.isInt then ⟨(⌊a.val / b.val⌋ : ℤ), true⟩
  else ⟨a.val / b.val, false⟩

/-- Python 2 multiplication, as in `lm_param *= lmstep`: the result is an
int exactly when both operands are. -/
def pyMul (a b : PyNum) : PyNum := ⟨a.val * b.val, a.isInt && b.isInt⟩

/-- The state left behind by the inner damping-search loop
(`gsolvers.py:92-109`): the variables `next`, `residuals`, `goal`,
`lm_param` and `stagnation` as they stand when the loop exits. -/
structure InnerState where
  next : Vec
  residuals : Vec
  goal : ℚ
  lm_param : PyNum
  stagnation : Bool
deriving DecidableEq

/-- Inner damping-search loop (`for lm_iteration in xrange(maxsteps)`,
`gsolvers.py:93-109`).  Arguments after the colon: remaining fuel, then
the mutable variables `next`, `residuals`, `goal`, `lm_param`.  A failed
`linsys_solver` propagates as `none` (uncaught `LinAlgError`).  The second
component is ghost: the value of `lm_param` after each attempt. -/
def innerLoop (data : Vec) (func : Vec → Vec) (reg_norm : Vec → ℚ)
    (lmstep : PyNum) (hessian : Mat) (hessian_diag : Vec) (gradient : Vec)
    (prev : Vec) (lastGoal : ℚ) :
    Nat → Vec → Vec → ℚ → PyNum → Option InnerState × List PyNum
  | 0, next, residuals, goal, lm_param =>
    (some ⟨next, residuals, goal, lm_param, true⟩, [])
  | fuel + 1, _, _, _, lm_param =>
    match linsys_solver (dampedHessian hessian hessian_diag lm_param.val)
        gradient with
    | none => (none, [])
    | some delta =>
      let next := vecAdd prev delta
      let residuals := vecSub data (func next)
      let goal := sqnorm residuals + reg_norm next
      if goal < lastGoal then
        let lm' := if lm_param.val > lmLow then pyDiv lm_param lmstep
          else lm_param
        (some ⟨next, residuals, goal, lm', false⟩, [lm'])
      else
        let lm' := if lm_param.val < lmHigh then pyMul lm_param lmstep
          else lm_param
        let r := innerLoop data func reg_norm lmstep hessian hessian_diag
          gradient prev lastGoal fuel next residuals goal lm'
        (r.1, lm' :: r.2)

structure MarqResult where
  estimate : Vec
  residuals : Vec
  goal_p_it : List ℚ
deriving DecidableEq

/-- Outer iteration loop (`for iteration in xrange(maxit)`,
`gsolvers.py:83-118`).  Arguments after the colon: remaining fuel, then
the mutable variables `next`, `residuals`, `lm_param`, `goals`, plus a
ghost counter of accepted iterations.  The result carries the returned
dictionary together with the ghost accepted count and a ghost flag that is
`true` exactly when the run ended on the stagnation branch; the second
component is the ghost `lm_param` trace. -/
def marqLoop (data : Vec) (func : Vec → Vec) (jac : Vec → Mat)
    (reg_norm : Vec → ℚ) (reg_grad : Option Vec → Vec → Vec)
    (reg_hess : Option Vec → Mat → Mat) (lmstep : PyNum) (maxsteps : Nat)
    (tol : ℚ) :
    Nat → Vec → Vec → PyNum → List ℚ → Nat →
    Option (MarqResult × Nat × Bool) × List PyNum
  | 0, next, residuals, _, goals, accepted =>
    (some (⟨next, residuals, goals⟩, accepted, false), [])
  | it + 1, next, residuals, lm_param, goals, accepted =>
    let prev := next
    let jacobian := jac prev
    let gradient0 := reg_grad (some prev)
      (scalMulVec (-1) (matVec (transpose jacobian) residuals))
    let hessian := reg_hess (some prev) (matMul (transpose jacobian) jacobian)
    let hessian_diag := diagVec hessian
    let gradient := scalMulVec (-1) gradient0
    let inner := innerLoop data func reg_norm lmstep hessian hessian_diag
      gradient prev (goals.getLastD 0) maxsteps prev residuals 0 lm_param
    match inner.1 with
    | none => (none, inner.2)
    | some st =>
      if st.stagnation then
        (some (⟨prev, st.residuals, goals⟩, accepted, true), inner.2)
      else
        let goals' := goals ++ [st.goal]
        if |(st.goal - goals.getLastD 0) / goals.getLastD 0| ≤ tol then
          (some (⟨st.next, st.residuals, goals'⟩, accepted + 1, false), inner.2)
        else
          let r := marqLoop data func jac reg_norm reg_grad reg_hess lmstep
            maxsteps tol it st.next st.residuals st.lm_param goals'
            (accepted + 1)
          (r.1, inner.2 ++ r.2)

/-- Embedding of `marq` with ghost observations: regularization defaulting,
initial residuals/goal, then the outer loop seeded with `lm_param =
lmstart` and `next = init`.  The ghost trace is prefixed with the initial
`lm_param` value so it lists every value `lm_param` ever holds. -/
def marqFull (data init : Vec) (func : Vec → Vec) (jac : Vec → Mat)
    (lmstart lmstep : PyNum) (maxsteps maxit : Nat) (tol : ℚ)
    (reg_norm : Option (Vec → ℚ)) (reg_grad : Option (Option Vec → Vec → Vec))
    (reg_hess : Option (Option Vec → Mat → Mat)) :
    Option (MarqResult × Nat × Bool) × List PyNum :=
  let regs := defaultRegs reg_norm reg_grad reg_hess
  let residuals := vecSub data (func init)
  let goals := [sqnorm residuals + regs.1 init]
  let r := marqLoop data func jac regs.1 regs.2.1 regs.2.2 lmstep maxsteps tol
    maxit init residuals lmstart goals 0
  (r.1, lmstart :: r.2)

/-- Embedding of `marq` (`gsolvers.py:67-120`): the ghost observations of
`marqFull` projected away, leaving the returned dictionary
`{'estimate', 'residuals', 'goal_p_it'}` (or `none` for an uncaught
`LinAlgError`). -/
def marq (data init : Vec) (func : Vec → Vec) (jac : Vec → Mat)
    (lmstart lmstep : PyNum) (maxsteps maxit : Nat) (tol : ℚ)
    (reg_norm : Option (Vec → ℚ)) (reg_grad : Option (Option Vec → Vec → Vec))
    (reg_hess : Option (Option Vec → Mat → Mat)) : Option MarqResult :=
  (marqFull data init func jac lmstart lmstep maxsteps maxit tol
    reg_norm reg_grad reg_hess).1.map (fun x => x.1)

/-- Ghost observation: every value the damping parameter `lm_param` holds
during a run of `marq` (the initial `lmstart` followed by its value after
each inner attempt). -/
def marqTrace (data init : Vec) (func : Vec → Vec) (jac : Vec → Mat)
    (lmstart lmstep : PyNum) (maxsteps maxit : Nat) (tol : ℚ)
    (reg_norm : Option (Vec → ℚ)) (reg_grad : Option (Option Vec → Vec → Vec))
    (reg_hess : Option (Option Vec → Mat → Mat)) : List PyNum :=
  (marqFull data init func jac lmstart lmstep maxsteps maxit tol
    reg_norm reg_grad reg_hess).2

/-! ## Helper lemmas -/

theorem getD_replicate_zero : ∀ (n j : Nat), (List.replicate n (0 : ℚ)).getD j 0 = 0
  | 0, _ => by simp
  | _ + 1, 0 => rfl
  | n + 1, j + 1 => getD_replicate_zero n j

theorem dotList_replicate_zero : ∀ (n : Nat) (v : Vec), dotList (List.replicate n 0) v = 0
  | 0, _ => by simp [dotList]
  | _ + 1, [] => by simp [dotList]
  | n + 1, x :: xs => by
    simpa [dotList, List.replicate_succ] using dotList_replicate_zero n xs

theorem transpose_zeroMat (N M : Nat) (hN : 0 < N) :
    transpose (zeroMat N M) = List.replicate M (List.replicate N 0) := by
  obtain ⟨n, rfl⟩ : ∃ n, N = n + 1 := ⟨N - 1, (Nat.succ_pred_eq_of_pos hN).symm⟩
  simp [transpose, zeroMat, List.replicate_succ, getD_replicate_zero,
    List.map_replicate, List.map_const', List.length_range]

theorem pivotRows_all_zero : ∀ (rows : List Vec),
    (∀ r ∈ rows, r.headD 0 = 0) → pivotRows rows = none
  | [], _ => rfl
  | r :: rs, h => by
    have hr : r.headD 0 = 0 := h r (List.mem_cons_self r rs)
    have hr' : (r.head?).getD 0 = (0 : ℚ) := by simpa using hr
    have ih := pivotRows_all_zero rs (fun x hx => h x (List.mem_cons_of_mem r hx))
    simp [pivotRows, hr', ih]

theorem linsys_solver_zero (M : Nat) (hM : 0 < M) :
    linsys_solver (List.replicate M (List.replicate M 0)) (List.replicate M 0)
      = none := by
  obtain ⟨m, rfl⟩ : ∃ m, M = m + 1 := ⟨M - 1, (Nat.succ_pred_eq_of_pos hM).symm⟩
  have hrows : List.zipWith (fun (row : Vec) x => row ++ [x])
      (List.replicate (m + 1) (List.replicate (m + 1) (0 : ℚ)))
      (List.replicate (m + 1) (0 : ℚ))
      = List.replicate (m + 1) (List.replicate (m + 1) (0 : ℚ) ++ [0]) := by
    simp [List.zipWith_replicate]
  have hall : ∀ r ∈ List.replicate (m + 1) (List.replicate (m + 1) (0 : ℚ) ++ [0]),
      r.headD 0 = 0 := by
    intro r hr
    rw [List.eq_of_mem_replicate hr]
    simp [List.replicate_succ]
  simp [linsys_solver, hrows, gaussSolve, pivotRows_all_zero _ hall]

theorem sqnorm_nonneg (v : Vec) : 0 ≤ sqnorm v := by
  refine List.sum_nonneg ?_
  intro x hx
  obtain ⟨a, _, rfl⟩ := List.mem_map.mp hx
  exact mul_self_nonneg a

theorem lmLow_pos : 0 < lmLow := by norm_num [lmLow]

theorem lmHigh_pos : 0 < lmHigh := by norm_num [lmHigh]

/-- One guarded update of `lm_param` keeps its value within
`[0, lmHigh·lmstep]` under Python 2 semantics: exact division of a float
shrinks it toward 0, floor division of two ints can land *on* 0 (hence 0,
not `lmLow/lmstep`, is the correct lower bound), and guarded
multiplication stays below `lmHigh·lmstep`. -/
theorem lm_update_inv (lmstep lm : PyNum) (hstep : 1 ≤ lmstep.val)
    (h0 : 0 ≤ lm.val) (hhi : lm.val ≤ lmHigh * lmstep.val) :
    (0 ≤ (if lm.val > lmLow then pyDiv lm lmstep else lm).val
      ∧ (if lm.val > lmLow then pyDiv lm lmstep else lm).val
          ≤ lmHigh * lmstep.val)
    ∧ (0 ≤ (if lm.val < lmHigh then pyMul lm lmstep else lm).val
      ∧ (if lm.val < lmHigh then pyMul lm lmstep else lm).val
          ≤ lmHigh * lmstep.val) := by
  have hpos : 0 < lmstep.val := lt_of_lt_of_le zero_lt_one hstep
  have hdiv0 : 0 ≤ lm.val / lmstep.val := div_nonneg h0 hpos.le
  have hdivle : lm.val / lmstep.val ≤ lm.val := div_le_self h0 hstep
  constructor
  · split
    · by_cases hint : (lm.isInt && lmstep.isInt) = true
      · simp only [pyDiv, if_pos hint]
        constructor
        · exact_mod_cast Int.floor_nonneg.mpr hdiv0
        · calc ((⌊lm.val / lmstep.val⌋ : ℤ) : ℚ)
              ≤ lm.val / lmstep.val := Int.floor_le _
            _ ≤ lm.val := hdivle
            _ ≤ lmHigh * lmstep.val := hhi
      · simp only [pyDiv, if_neg hint]
        exact ⟨hdiv0, le_trans hdivle hhi⟩
    · exact ⟨h0, hhi⟩
  · split
    · next hlt =>
      simp only [pyMul]
      exact ⟨mul_nonneg h0 hpos.le,
        mul_le_mul_of_nonneg_right hlt.le hpos.le⟩
    · exact ⟨h0, hhi⟩

/-- What an *accepted* inner damping search guarantees: the accepted goal
is strictly below the previous accepted goal, it is exactly
`‖residuals‖² + reg_norm(next)`, and the residuals stored with it are the
residuals of the accepted candidate. -/
theorem innerLoop_accepts (data : Vec) (func : Vec → Vec) (reg_norm : Vec → ℚ)
    (lmstep : PyNum) (hessian : Mat) (hessian_diag : Vec) (gradient : Vec)
    (prev : Vec) (lastGoal : ℚ) :
    ∀ (fuel : Nat) (nx rs : Vec) (gl : ℚ) (lm : PyNum) (st : InnerState),
      (innerLoop data func reg_norm lmstep hessian hessian_diag gradient prev
          lastGoal fuel nx rs gl lm).1 = some st →
      st.stagnation = false →
      st.goal < lastGoal ∧ st.goal = sqnorm st.residuals + reg_norm st.next
        ∧ st.residuals = vecSub data (func st.next) := by
  intro fuel
  induction fuel with
  | zero =>
    intro nx rs gl lm st h hst
    simp only [innerLoop, Option.some.injEq] at h
    rw [← h] at hst
    simp at hst
  | succ n ih =>
    intro nx rs gl lm st h hst
    simp only [innerLoop] at h
    split at h
    · simp at h
    · split at h
      · next hgoal =>
        simp only [Option.some.injEq] at h
        rw [← h]
        exact ⟨hgoal, rfl, rfl⟩
      · exact ih _ _ _ _ _ h hst

/-- The damping-parameter invariant through one inner loop: if the value
of `lm_param` enters within `[0, lmHigh·lmstep]`, every value it takes
during the loop, and its value on exit, stay within that interval. -/
theorem innerLoop_lm_inv (data : Vec) (func : Vec → Vec) (reg_norm : Vec → ℚ)
    (lmstep : PyNum) (hessian : Mat) (hessian_diag : Vec) (gradient : Vec)
    (prev : Vec) (lastGoal : ℚ) (hstep : 1 ≤ lmstep.val) :
    ∀ (fuel : Nat) (nx rs : Vec) (gl : ℚ) (lm : PyNum),
      0 ≤ lm.val → lm.val ≤ lmHigh * lmstep.val →
      (∀ l ∈ (innerLoop data func reg_norm lmstep hessian hessian_diag
          gradient prev lastGoal fuel nx rs gl lm).2,
        0 ≤ l.val ∧ l.val ≤ lmHigh * lmstep.val)
      ∧ (∀ st, (innerLoop data func reg_norm lmstep hessian hessian_diag
            gradient prev lastGoal fuel nx rs gl lm).1 = some st →
          0 ≤ st.lm_param.val ∧ st.lm_param.val ≤ lmHigh * lmstep.val) := by
  intro fuel
  induction fuel with
  | zero =>
    intro nx rs gl lm hlo hhi
    constructor
    · intro l hl
      simp [innerLoop] at hl
    · intro st h
      simp only [innerLoop, Option.some.injEq] at h
      rw [← h]
      exact ⟨hlo, hhi⟩
  | succ n ih =>
    intro nx rs gl lm hlo hhi
    have hup := lm_update_inv lmstep lm hstep hlo hhi
    constructor
    · intro l hl
      simp only [innerLoop] at hl
      split at hl
      · simp at hl
      · split at hl
        · simp only [List.mem_singleton] at hl
          rw [hl]
          exact hup.1
        · simp only [List.mem_cons] at hl
          rcases hl with rfl | hl
          · exact hup.2
          · exact ((ih _ _ _ _ hup.2.1 hup.2.2).1) l hl
    · intro st h
      simp only [innerLoop] at h
      split at h
      · simp at h
      · split at h
        · simp only [Option.some.injEq] at h
          rw [← h]
          exact hup.1
        · exact ((ih _ _ _ _ hup.2.1 hup.2.2).2) st h

theorem getLastD_default_irrel : ∀ (l : List ℚ), l ≠ [] → ∀ (a b : ℚ),
    l.getLastD a = l.getLastD b
  | [], hl, _, _ => absurd rfl hl
  | [_], _, _, _ => rfl
  | _ :: _ :: _, _, _, _ => by simp only [List.getLastD_cons]

theorem chain_ge_append : ∀ (l : List ℚ) (g : ℚ), l ≠ [] →
    List.Chain' (fun a b => b ≤ a) l → g ≤ l.getLastD 0 →
    List.Chain' (fun a b => b ≤ a) (l ++ [g])
  | [], _, hl, _, _ => absurd rfl hl
  | [x], g, _, _, hg => by
    simp only [List.cons_append, List.nil_append]
    exact List.chain'_cons.mpr
      ⟨by simpa [List.getLastD] using hg, List.chain'_singleton g⟩
  | x :: y :: ys, g, _, hc, hg => by
    rw [List.chain'_cons] at hc
    have hg' : g ≤ (y :: ys).getLastD 0 := by
      simpa [List.getLastD_cons] using hg
    simp only [List.cons_append]
    exact List.chain'_cons.mpr
      ⟨hc.1, by
        simpa only [List.cons_append] using
          chain_ge_append (y :: ys) g (by simp) hc.2 hg'⟩

theorem chain_ge_getD : ∀ (l : List ℚ), List.Chain' (fun a b => b ≤ a) l →
    ∀ i, i + 1 < l.length → l.getD (i + 1) 0 ≤ l.getD i 0
  | [], _, _, h => by simp at h
  | [_], _, _, h => by simp at h
  | x :: y :: ys, hc, 0, _ => by
    rw [List.chain'_cons] at hc
    simpa using hc.1
  | x :: y :: ys, hc, i + 1, h => by
    rw [List.chain'_cons] at hc
    have := chain_ge_getD (y :: ys) hc.2 i (by simpa using h)
    simpa using this

/-- Goal-history invariant of the outer loop: starting from a non-empty,
non-increasing goals list, any returned goals list is non-empty and
non-increasing. -/
theorem marqLoop_chain (data : Vec) (func : Vec → Vec) (jac : Vec → Mat)
    (reg_norm : Vec → ℚ) (reg_grad : Option Vec → Vec → Vec)
    (reg_hess : Option Vec → Mat → Mat) (lmstep : PyNum) (maxsteps : Nat)
    (tol : ℚ) :
    ∀ (fuel : Nat) (nx rs : Vec) (lm : PyNum) (goals : List ℚ) (acc : Nat)
      (res : MarqResult) (cnt : Nat) (stg : Bool),
      goals ≠ [] → List.Chain' (fun a b => b ≤ a) goals →
      (marqLoop data func jac reg_norm reg_grad reg_hess lmstep maxsteps tol
          fuel nx rs lm goals acc).1 = some (res, cnt, stg) →
      res.goal_p_it ≠ [] ∧ List.Chain' (fun a b => b ≤ a) res.goal_p_it := by
  intro fuel
  induction fuel with
  | zero =>
    intro nx rs lm goals acc res cnt stg hne hch h
    simp only [marqLoop, Option.some.injEq, Prod.mk.injEq] at h
    rw [← h.1]
    exact ⟨hne, hch⟩
  | succ n ih =>
    intro nx rs lm goals acc res cnt stg hne hch h
    simp only [marqLoop] at h
    split at h
    · simp at h
    · next st heq =>
      split at h
      · simp only [Option.some.injEq, Prod.mk.injEq] at h
        rw [← h.1]
        exact ⟨hne, hch⟩
      · next hstg =>
        have hacc := innerLoop_accepts data func reg_norm lmstep _ _ _ _ _
          maxsteps _ _ _ _ st heq (Bool.not_eq_true _ |>.mp hstg)
        have hne' : goals ++ [st.goal] ≠ [] := by simp
        have hch' : List.Chain' (fun a b => b ≤ a) (goals ++ [st.goal]) :=
          chain_ge_append goals st.goal hne hch hacc.1.le
        split at h
        · simp only [Option.some.injEq, Prod.mk.injEq] at h
          rw [← h.1]
          exact ⟨hne', hch'⟩
        · exact ih _ _ _ _ _ _ _ _ hne' hch' h

/-- Accepted-iteration counting invariant of the outer loop: the goals
list gains exactly one entry per accepted iteration, and at most `fuel`
iterations can accept. -/
theorem marqLoop_count (data : Vec) (func : Vec → Vec) (jac : Vec → Mat)
    (reg_norm : Vec → ℚ) (reg_grad : Option Vec → Vec → Vec)
    (reg_hess : Option Vec → Mat → Mat) (lmstep : PyNum) (maxsteps : Nat)
    (tol : ℚ) :
    ∀ (fuel : Nat) (nx rs : Vec) (lm : PyNum) (goals : List ℚ) (acc : Nat)
      (res : MarqResult) (cnt : Nat) (stg : Bool),
      (marqLoop data func jac reg_norm reg_grad reg_hess lmstep maxsteps tol
          fuel nx rs lm goals acc).1 = some (res, cnt, stg) →
      goals.length = acc + 1 →
      res.goal_p_it.length = cnt + 1 ∧ cnt ≤ acc + fuel := by
  intro fuel
  induction fuel with
  | zero =>
    intro nx rs lm goals acc res cnt stg h hlen
    simp only [marqLoop, Option.some.injEq, Prod.mk.injEq] at h
    rw [← h.1, ← h.2.1]
    exact ⟨hlen, Nat.le_refl _⟩
  | succ n ih =>
    intro nx rs lm goals acc res cnt stg h hlen
    simp only [marqLoop] at h
    split at h
    · simp at h
    · next st heq =>
      split at h
      · simp only [Option.some.injEq, Prod.mk.injEq] at h
        rw [← h.1, ← h.2.1]
        exact ⟨hlen, Nat.le_add_right _ _⟩
      · split at h
        · simp only [Option.some.injEq, Prod.mk.injEq] at h
          rw [← h.1, ← h.2.1]
          constructor
          · simp [hlen]
          · omega
        · have hlen' : (goals ++ [st.goal]).length = (acc + 1) + 1 := by
            simp [hlen]
          have := ih _ _ _ _ _ _ _ _ h hlen'
          exact ⟨this.1, by omega⟩

/-- Residual consistency invariant of the outer loop: if the incoming
residuals match the incoming iterate, and the run does not end on the
stagnation branch, the returned residuals match the returned estimate. -/
theorem marqLoop_residuals (data : Vec) (func : Vec → Vec) (jac : Vec → Mat)
    (reg_norm : Vec → ℚ) (reg_grad : Option Vec → Vec → Vec)
    (reg_hess : Option Vec → Mat → Mat) (lmstep : PyNum) (maxsteps : Nat)
    (tol : ℚ) :
    ∀ (fuel : Nat) (nx rs : Vec) (lm : PyNum) (goals : List ℚ) (acc : Nat)
      (res : MarqResult) (cnt : Nat),
      rs = vecSub data (func nx) →
      (marqLoop data func jac reg_norm reg_grad reg_hess lmstep maxsteps tol
          fuel nx rs lm goals acc).1 = some (res, cnt, false) →
      res.residuals = vecSub data (func res.estimate) := by
  intro fuel
  induction fuel with
  | zero =>
    intro nx rs lm goals acc res cnt hrs h
    simp only [marqLoop, Option.some.injEq, Prod.mk.injEq] at h
    rw [← h.1]
    exact hrs
  | succ n ih =>
    intro nx rs lm goals acc res cnt hrs h
    simp only [marqLoop] at h
    split at h
    · simp at h
    · next st heq =>
      split at h
      · simp only [Option.some.injEq, Prod.mk.injEq] at h
        exact absurd h.2.2 (by simp)
      · next hstg =>
        have hacc := innerLoop_accepts data func reg_norm lmstep _ _ _ _ _
          maxsteps _ _ _ _ st heq (Bool.not_eq_true _ |>.mp hstg)
        split at h
        · simp only [Option.some.injEq, Prod.mk.injEq] at h
          rw [← h.1]
          exact hacc.2.2
        · exact ih _ _ _ _ _ _ _ hacc.2.2 h

/-- Damping-parameter invariant of the outer loop: if the value of
`lm_param` enters within `[0, lmHigh·lmstep]`, every value recorded in the
ghost trace stays within that interval. -/
theorem marqLoop_lm_inv (data : Vec) (func : Vec → Vec) (jac : Vec → Mat)
    (reg_norm : Vec → ℚ) (reg_grad : Option Vec → Vec → Vec)
    (reg_hess : Option Vec → Mat → Mat) (lmstep : PyNum) (maxsteps : Nat)
    (tol : ℚ) (hstep : 1 ≤ lmstep.val) :
    ∀ (fuel : Nat) (nx rs : Vec) (lm : PyNum) (goals : List ℚ) (acc : Nat),
      0 ≤ lm.val → lm.val ≤ lmHigh * lmstep.val →
      ∀ l ∈ (marqLoop data func jac reg_norm reg_grad reg_hess lmstep
          maxsteps tol fuel nx rs lm goals acc).2,
        0 ≤ l.val ∧ l.val ≤ lmHigh * lmstep.val := by
  intro fuel
  induction fuel with
  | zero =>
    intro nx rs lm goals acc _ _ l hl
    simp [marqLoop] at hl
  | succ n ih =>
    intro nx rs lm goals acc hlo hhi l hl
    simp only [marqLoop] at hl
    have hinner := innerLoop_lm_inv data func reg_norm lmstep
      (reg_hess (some nx) (matMul (transpose (jac nx)) (jac nx)))
      (diagVec (reg_hess (some nx) (matMul (transpose (jac nx)) (jac nx))))
      (scalMulVec (-1) (reg_grad (some nx)
        (scalMulVec (-1) (matVec (transpose (jac nx)) rs))))
      nx (goals.getLastD 0) hstep maxsteps nx rs 0 lm hlo hhi
    split at hl
    · exact hinner.1 l hl
    · next st heq =>
      split at hl
      · exact hinner.1 l hl
      · split at hl
        · exact hinner.1 l hl
        · rcases List.mem_append.mp hl with hl | hl
          · exact hinner.1 l hl
          · have hst := hinner.2 st heq
            exact ih _ _ _ _ _ hst.1 hst.2 l hl

/-! ## Claim theorems -/

/-- Claim C1 (code bug): the spec says every inner damping attempt solves
`(H + λ·diag(H))·Δ = −g` with off-diagonal entries of the system matrix
unchanged, but the source's `hessian + lm_param*hessian_diag`
(`gsolvers.py:94`) adds the 1-D diagonal array to **every row** by numpy
broadcasting.  At the Hessian `[[1,0],[0,1]]` with `λ = 100` the code's
matrix (`dampedHessian`, used verbatim in `innerLoop`) has off-diagonal
entries `100`, while the matrix the spec describes (`specDampedHessian`)
keeps them `0`. -/
theorem C1_damping_is_broadcast_not_diagonal :
    dampedHessian [[1, 0], [0, 1]] (diagVec [[1, 0], [0, 1]]) 100
        = [[101, 100], [100, 101]]
    ∧ specDampedHessian [[1, 0], [0, 1]] 100 = [[101, 0], [0, 101]]
    ∧ dampedHessian [[1, 0], [0, 1]] (diagVec [[1, 0], [0, 1]]) 100
        ≠ specDampedHessian [[1, 0], [0, 1]] 100 := by
  refine ⟨?_, ?_, ?_⟩ <;>
    norm_num [dampedHessian, specDampedHessian, diagVec, addRowBroadcast,
      scalMulVec, List.zipWith, List.enum]

/-- Claim C5 (confirmed): calling `linsolver` or `marq` with all three
regularization callbacks omitted gives a result identical to calling it
with the explicit no-op callbacks (zero norm, identity gradient, identity
Hessian), for every input. -/
theorem C5_omitted_regs_equal_noop_regs (data init : Vec) (func : Vec → Vec)
    (jacM : Mat) (jacF : Vec → Mat) (lmstart lmstep : PyNum)
    (maxsteps maxit : Nat) (tol : ℚ) :
    linsolver data func jacM none none none
      = linsolver data func jacM (some noRegNorm) (some noRegGrad)
          (some noRegHess)
    ∧ marq data init func jacF lmstart lmstep maxsteps maxit tol
        none none none
      = marq data init func jacF lmstart lmstep maxsteps maxit tol
          (some noRegNorm) (some noRegGrad) (some noRegHess) :=
  ⟨rfl, rfl⟩

/-- Claim C6 (confirmed): if at least one of the three regularization
callbacks is `None` (in particular when exactly one or exactly two are
supplied), the source silently replaces all three by the no-ops, so the
solve behaves identically to supplying no regularization at all — whatever
the supplied callbacks compute. -/
theorem C6_partial_regs_silently_dropped (data init : Vec) (func : Vec → Vec)
    (jacM : Mat) (jacF : Vec → Mat) (lmstart lmstep : PyNum)
    (maxsteps maxit : Nat) (tol : ℚ) (rn : Option (Vec → ℚ))
    (rg : Option (Option Vec → Vec → Vec))
    (rh : Option (Option Vec → Mat → Mat))
    (h : rn = none ∨ rg = none ∨ rh = none) :
    linsolver data func jacM rn rg rh
      = linsolver data func jacM none none none
    ∧ marq data init func jacF lmstart lmstep maxsteps maxit tol rn rg rh
      = marq data init func jacF lmstart lmstep maxsteps maxit tol
          none none none := by
  have hd : defaultRegs rn rg rh = defaultRegs none none none := by
    rcases h with h | h | h <;> subst h
    · cases rg <;> cases rh <;> rfl
    · cases rn <;> cases rh <;> rfl
    · cases rn <;> cases rg <;> rfl
  constructor
  · simp only [linsolver, hd]
  · simp only [marq, marqFull, hd]

/-- Witness for C6: supplying only a (nonzero!) norm callback and a
Hessian callback, with the gradient callback omitted, gives the same
result as no regularization at all. -/
theorem C6_witness :
    ((some (fun _ => (7 : ℚ)) : Option (Vec → ℚ)) = none
      ∨ (none : Option (Option Vec → Vec → Vec)) = none
      ∨ (some noRegHess : Option (Option Vec → Mat → Mat)) = none)
    ∧ (linsolver [1] (fun v => v) [[1]] (some (fun _ => (7 : ℚ))) none
          (some noRegHess)
        = linsolver [1] (fun v => v) [[1]] none none none
      ∧ marq [1] [1] (fun v => v) (fun _ => [[1]]) ⟨100, true⟩ ⟨10, true⟩
          20 100 (1 / 10 ^ 5)
          (some (fun _ => (7 : ℚ))) none (some noRegHess)
        = marq [1] [1] (fun v => v) (fun _ => [[1]]) ⟨100, true⟩ ⟨10, true⟩
          20 100 (1 / 10 ^ 5) none none none) :=
  ⟨Or.inr (Or.inl rfl),
    C6_partial_regs_silently_dropped [1] [1] (fun v => v) [[1]]
      (fun _ => [[1]]) ⟨100, true⟩ ⟨10, true⟩ 20 100 (1 / 10 ^ 5)
      (some (fun _ => (7 : ℚ))) none (some noRegHess)
      (Or.inr (Or.inl rfl))⟩

/-- Claim C7 (confirmed): on an all-zero N×M Jacobian with no
regularization, the normal-equation matrix is the zero matrix, the
embedded `numpy.linalg.solve` fails, and the failure propagates out of
`linsolver` unchanged: no result record is produced. -/
theorem C7_zero_jacobian_failure_propagates (N M : Nat) (data : Vec)
    (func : Vec → Vec) (hN : 0 < N) (hM : 0 < M) :
    linsolver data func (zeroMat N M) none none none = none := by
  have htr := transpose_zeroMat N M hN
  have hhess : matMul (transpose (zeroMat N M)) (zeroMat N M)
      = List.replicate M (List.replicate M 0) := by
    rw [htr, matMul, htr, List.map_replicate, List.map_replicate,
      dotList_replicate_zero]
  have hrhs : matVec (transpose (zeroMat N M)) data = List.replicate M 0 := by
    rw [htr, matVec, List.map_replicate, dotList_replicate_zero]
  simp only [linsolver, defaultRegs, noRegHess, hhess, hrhs,
    linsys_solver_zero M hM]

/-- Witness for C7: the concrete 1×1 all-zero Jacobian with data `[5]`. -/
theorem C7_witness :
    0 < 1 ∧ linsolver [5] (fun v => v) (zeroMat 1 1) none none none = none :=
  ⟨Nat.one_pos,
    C7_zero_jacobian_failure_propagates 1 1 [5] (fun v => v)
      Nat.one_pos Nat.one_pos⟩

/-- Claim C9 (confirmed): for the linear model with Jacobian
`A = [[1],[2]]`, data `[3,6]` and forward map `p ↦ A·p`, `linsolver`
returns estimate `[3]` and residuals `[0,0]` exactly. -/
theorem C9_linear_roundtrip :
    linsolver [3, 6] (fun p => matVec [[1], [2]] p) [[1], [2]]
        none none none
      = some ⟨[3], [0, 0]⟩ := by
  norm_num [linsolver, defaultRegs, noRegHess, matMul, matVec, transpose,
    dotList, vecSub, linsys_solver, gaussSolve, pivotRows, elimStep,
    List.range_succ, List.zipWith, List.getLastD]

/-- Claim C2 (corrected): for every run that terminates *without*
stagnation (convergence or `maxit` exhaustion), the returned residuals
equal `data − func(estimate)` for the returned estimate.  (The original
claim also asserted this for the stagnation case; that part is refuted by
`C2_counterexample` below: on stagnation the source reverts `next = prev`
but does not recompute `residuals`.) -/
theorem C2_residuals_match_without_stagnation (data init : Vec)
    (func : Vec → Vec) (jac : Vec → Mat) (lmstart lmstep : PyNum)
    (maxsteps maxit : Nat) (tol : ℚ) (rn : Option (Vec → ℚ))
    (rg : Option (Option Vec → Vec → Vec))
    (rh : Option (Option Vec → Mat → Mat)) (res : MarqResult) (cnt : Nat)
    (h : (marqFull data init func jac lmstart lmstep maxsteps maxit tol
        rn rg rh).1 = some (res, cnt, false)) :
    res.residuals = vecSub data (func res.estimate) := by
  simp only [marqFull] at h
  exact marqLoop_residuals data func jac _ _ _ lmstep maxsteps tol
    maxit init _ lmstart _ 0 res cnt rfl h

/-- Witness for C2: a one-iteration accepted run; the returned residuals
match the returned estimate. -/
theorem C2_witness :
    (marqFull [1] [0] (fun p => p) (fun _ => [[1]]) ⟨100, true⟩ ⟨10, true⟩
        1 1 (1 / 10 ^ 5) none none none).1
      = some (⟨[1 / 101], [100 / 101], [1, 10000 / 10201]⟩, 1, false)
    ∧ (MarqResult.mk [1 / 101] [100 / 101] [1, 10000 / 10201]).residuals
      = vecSub [1] ((fun p => p)
          (MarqResult.mk [1 / 101] [100 / 101] [1, 10000 / 10201]).estimate) := by
  have h : (marqFull [1] [0] (fun p => p) (fun _ => [[1]]) ⟨100, true⟩
      ⟨10, true⟩ 1 1 (1 / 10 ^ 5) none none none).1
      = some (⟨[1 / 101], [100 / 101], [1, 10000 / 10201]⟩, 1, false) := by
    norm_num [marqFull, marqLoop, innerLoop, defaultRegs, noRegNorm, noRegGrad,
      noRegHess, matMul, matVec, transpose, dotList, vecSub, vecAdd, scalMulVec,
      sqnorm, diagVec, addRowBroadcast, dampedHessian, linsys_solver, gaussSolve,
      pivotRows, elimStep, pyDiv, pyMul, abs_le, lmLow, lmHigh, List.range_succ, List.zipWith,
      List.getLastD, List.enum]
  exact ⟨h, C2_residuals_match_without_stagnation [1] [0] (fun p => p)
    (fun _ => [[1]]) ⟨100, true⟩ ⟨10, true⟩ 1 1 (1 / 10 ^ 5) none none none
    _ 1 h⟩

/-- Counterexample to C2 as stated: a run that stagnates on its single
outer iteration.  The attempted candidate was `[1/2]` (residuals
`[-3/2]`), the step is reverted so the returned estimate is `[0]`, but
the returned residuals are still those of the rejected candidate:
`data − func(estimate) = [1]`, not `[-3/2]`. -/
theorem C2_counterexample :
    marq [1] [0] (fun p => [5 * p.headD 0]) (fun _ => [[1]]) ⟨1, true⟩
        ⟨10, true⟩ 1 1 (1 / 10 ^ 5) none none none
      = some ⟨[0], [-(3 : ℚ) / 2], [1]⟩
    ∧ vecSub [1] ((fun p => [5 * p.headD 0]) [0]) = [1]
    ∧ ([-(3 : ℚ) / 2] : Vec) ≠ ([1] : Vec) := by
  refine ⟨?_, ?_, ?_⟩ <;>
    norm_num [marq, marqFull, marqLoop, innerLoop, defaultRegs, noRegNorm,
      noRegGrad, noRegHess, matMul, matVec, transpose, dotList, vecSub, vecAdd,
      scalMulVec, sqnorm, diagVec, addRowBroadcast, dampedHessian,
      linsys_solver, gaussSolve, pivotRows, elimStep, pyDiv, pyMul, abs_le, lmLow, lmHigh,
      List.range_succ, List.zipWith, List.getLastD, List.enum]

/-- Claim C3 (corrected): the original claim (λ ∈ [1e-10, 1e10] at every
point, for every input) fails in two ways, both shown by
`C3_counterexample`: `lmstart` itself is unconstrained (so λ can start at
`10^20`), and Python 2 floor division at the integer defaults
(`lmstart=100`, `lmstep=10`) drives λ to exactly `0` (`100 → 10 → 1 → 0`)
after three accepted iterations, below `1e-10`.  What holds: if
`lmstep ≥ 1` and `0 ≤ lmstart ≤ 1e10`, every value λ takes during the run
lies within `[0, 1e10·lmstep]` — the updates are guarded, never clamped,
and the guarded shrink can only land in `[0, λ)`. -/
theorem C3_lm_bounds_amended (data init : Vec) (func : Vec → Vec)
    (jac : Vec → Mat) (lmstart lmstep : PyNum) (maxsteps maxit : Nat)
    (tol : ℚ) (rn : Option (Vec → ℚ)) (rg : Option (Option Vec → Vec → Vec))
    (rh : Option (Option Vec → Mat → Mat))
    (hstep : 1 ≤ lmstep.val) (h0 : 0 ≤ lmstart.val)
    (hhi : lmstart.val ≤ lmHigh) :
    ∀ l ∈ marqTrace data init func jac lmstart lmstep maxsteps maxit tol
        rn rg rh,
      0 ≤ l.val ∧ l.val ≤ lmHigh * lmstep.val := by
  intro l hl
  have hhi' : lmstart.val ≤ lmHigh * lmstep.val :=
    le_trans hhi (le_mul_of_one_le_right lmHigh_pos.le hstep)
  simp only [marqTrace, marqFull, List.mem_cons] at hl
  rcases hl with rfl | hl
  · exact ⟨h0, hhi'⟩
  · exact marqLoop_lm_inv data func jac _ _ _ lmstep maxsteps tol hstep
      maxit init _ lmstart _ 0 h0 hhi' l hl

/-- Witness for the amended C3 at the source defaults
(`lmstart = int 100`, `lmstep = int 10`). -/
theorem C3_witness :
    (1 : ℚ) ≤ (PyNum.mk 10 true).val ∧ 0 ≤ (PyNum.mk 100 true).val
    ∧ (PyNum.mk 100 true).val ≤ lmHigh
    ∧ ∀ l ∈ marqTrace [1] [1] (fun p => p) (fun _ => [[1]]) ⟨100, true⟩
        ⟨10, true⟩ 20 100 (1 / 10 ^ 5) none none none,
      0 ≤ l.val ∧ l.val ≤ lmHigh * (PyNum.mk 10 true).val :=
  ⟨by norm_num, by norm_num, by norm_num [lmHigh],
    C3_lm_bounds_amended [1] [1] (fun p => p) (fun _ => [[1]]) ⟨100, true⟩
      ⟨10, true⟩ 20 100 (1 / 10 ^ 5) none none none (by norm_num)
      (by norm_num) (by norm_num [lmHigh])⟩

/-- Counterexample to C3 as stated, at two explicit inputs.  First: with
`lmstart = 10^20` the damping parameter is `10^20` during the first inner
attempt (trace `[10^20, 10^20]`), above `1e10`.  Second: at the source's
own integer defaults (`lmstart=100`, `lmstep=10`), three accepted
iterations floor-divide λ as `100 → 10 → 1 → 1//10 = 0` (trace
`[100, 10, 1, 0]`), and `0 < 1e-10` — λ leaves the claimed interval at
the bottom as well. -/
theorem C3_counterexample :
    (¬ ∀ l ∈ marqTrace [1] [1] (fun p => p) (fun _ => [[1]]) ⟨10 ^ 20, true⟩
        ⟨10, true⟩ 1 1 (1 / 10 ^ 5) none none none,
      lmLow ≤ l.val ∧ l.val ≤ lmHigh)
    ∧ ¬ ∀ l ∈ marqTrace [1] [0] (fun p => p) (fun _ => [[1]]) ⟨100, true⟩
        ⟨10, true⟩ 20 3 (1 / 10 ^ 5) none none none,
      lmLow ≤ l.val ∧ l.val ≤ lmHigh := by
  constructor
  · intro h
    have ht : marqTrace [1] [1] (fun p => p) (fun _ => [[1]]) ⟨10 ^ 20, true⟩
        ⟨10, true⟩ 1 1 (1 / 10 ^ 5) none none none
        = [⟨10 ^ 20, true⟩, ⟨10 ^ 20, true⟩] := by
      norm_num [marqTrace, marqFull, marqLoop, innerLoop, defaultRegs,
        noRegNorm, noRegGrad, noRegHess, matMul, matVec, transpose, dotList,
        vecSub, vecAdd, scalMulVec, sqnorm, diagVec, addRowBroadcast,
        dampedHessian, linsys_solver, gaussSolve, pivotRows, elimStep, pyDiv,
        pyMul, abs_le, lmLow, lmHigh, List.range_succ, List.zipWith, List.getLastD,
        List.enum]
    rw [ht] at h
    have := (h ⟨10 ^ 20, true⟩ (List.mem_cons_self _ _)).2
    norm_num [lmHigh] at this
  · intro h
    have ht : marqTrace [1] [0] (fun p => p) (fun _ => [[1]]) ⟨100, true⟩
        ⟨10, true⟩ 20 3 (1 / 10 ^ 5) none none none
        = [⟨100, true⟩, ⟨10, true⟩, ⟨1, true⟩, ⟨0, true⟩] := by
      norm_num [marqTrace, marqFull, marqLoop, innerLoop, defaultRegs,
        noRegNorm, noRegGrad, noRegHess, matMul, matVec, transpose, dotList,
        vecSub, vecAdd, scalMulVec, sqnorm, diagVec, addRowBroadcast,
        dampedHessian, linsys_solver, gaussSolve, pivotRows, elimStep, pyDiv,
        pyMul, abs_le, lmLow, lmHigh, List.range_succ, List.zipWith, List.getLastD,
        List.enum]
    rw [ht] at h
    have hmem : (⟨0, true⟩ : PyNum)
        ∈ [(⟨100, true⟩ : PyNum), ⟨10, true⟩, ⟨1, true⟩, ⟨0, true⟩] := by
      simp
    have := (h ⟨0, true⟩ hmem).1
    norm_num [lmLow] at this

/-- Claim C4 (confirmed): for every run of `marq` that returns a result,
the returned goal history is non-increasing:
`goals[i+1] ≤ goals[i]` for every consecutive pair. -/
theorem C4_goal_history_nonincreasing (data init : Vec) (func : Vec → Vec)
    (jac : Vec → Mat) (lmstart lmstep : PyNum) (maxsteps maxit : Nat) (tol : ℚ)
    (rn : Option (Vec → ℚ)) (rg : Option (Option Vec → Vec → Vec))
    (rh : Option (Option Vec → Mat → Mat)) (res : MarqResult)
    (h : marq data init func jac lmstart lmstep maxsteps maxit tol rn rg rh
      = some res) :
    ∀ i, i + 1 < res.goal_p_it.length →
      res.goal_p_it.getD (i + 1) 0 ≤ res.goal_p_it.getD i 0 := by
  simp only [marq] at h
  obtain ⟨a, ha, hfa⟩ := Option.map_eq_some'.mp h
  obtain ⟨res', cnt, stg⟩ := a
  simp only at hfa
  subst hfa
  simp only [marqFull] at ha
  have hch := marqLoop_chain data func jac _ _ _ lmstep maxsteps tol
    maxit init _ lmstart _ 0 res' cnt stg (by simp)
    (List.chain'_singleton _) ha
  exact chain_ge_getD res'.goal_p_it hch.2

/-- Witness for C4: a concrete accepted run whose goal history is
`[4, 40000/10201]`. -/
theorem C4_witness :
    marq [2] [0] (fun p => p) (fun _ => [[1]]) ⟨100, true⟩ ⟨10, true⟩ 1 1
        (1 / 10 ^ 5) none none none
      = some ⟨[2 / 101], [200 / 101], [4, 40000 / 10201]⟩
    ∧ ∀ i, i + 1
        < (MarqResult.mk [2 / 101] [200 / 101] [4, 40000 / 10201]).goal_p_it.length →
      (MarqResult.mk [2 / 101] [200 / 101] [4, 40000 / 10201]).goal_p_it.getD (i + 1) 0
        ≤ (MarqResult.mk [2 / 101] [200 / 101] [4, 40000 / 10201]).goal_p_it.getD i 0 := by
  have h : marq [2] [0] (fun p => p) (fun _ => [[1]]) ⟨100, true⟩ ⟨10, true⟩
      1 1 (1 / 10 ^ 5) none none none
      = some ⟨[2 / 101], [200 / 101], [4, 40000 / 10201]⟩ := by
    norm_num [marq, marqFull, marqLoop, innerLoop, defaultRegs, noRegNorm,
      noRegGrad, noRegHess, matMul, matVec, transpose, dotList, vecSub, vecAdd,
      scalMulVec, sqnorm, diagVec, addRowBroadcast, dampedHessian,
      linsys_solver, gaussSolve, pivotRows, elimStep, pyDiv, pyMul, abs_le, lmLow, lmHigh,
      List.range_succ, List.zipWith, List.getLastD, List.enum]
  exact ⟨h, fun i hi => C4_goal_history_nonincreasing [2] [0] (fun p => p)
    (fun _ => [[1]]) ⟨100, true⟩ ⟨10, true⟩ 1 1 (1 / 10 ^ 5) none none none
    _ h i hi⟩

/-- Claim C8 (confirmed): the returned goal history has length equal to
the number of accepted outer iterations plus one (the ghost counter of
`marqFull` counts exactly the accept branches); the count never exceeds
`maxit`, and with `maxit = 1` the history has length 1 (stagnation) or 2
(accepted). -/
theorem C8_goal_history_length (data init : Vec) (func : Vec → Vec)
    (jac : Vec → Mat) (lmstart lmstep : PyNum) (maxsteps maxit : Nat) (tol : ℚ)
    (rn : Option (Vec → ℚ)) (rg : Option (Option Vec → Vec → Vec))
    (rh : Option (Option Vec → Mat → Mat)) (res : MarqResult)
    (cnt : Nat) (stg : Bool)
    (h : (marqFull data init func jac lmstart lmstep maxsteps maxit tol
        rn rg rh).1 = some (res, cnt, stg)) :
    marq data init func jac lmstart lmstep maxsteps maxit tol rn rg rh
      = some res
    ∧ res.goal_p_it.length = cnt + 1 ∧ cnt ≤ maxit
    ∧ (maxit = 1 → res.goal_p_it.length = 1 ∨ res.goal_p_it.length = 2) := by
  have hmarq : marq data init func jac lmstart lmstep maxsteps maxit tol
      rn rg rh = some res := by
    simp [marq, h]
  simp only [marqFull] at h
  have hc := marqLoop_count data func jac _ _ _ lmstep maxsteps tol
    maxit init _ lmstart _ 0 res cnt stg h (by simp)
  refine ⟨hmarq, hc.1, by simpa using hc.2, fun h1 => ?_⟩
  have := hc.1
  have := hc.2
  omega

/-- Witness for C8: a stagnating run with `maxit = 1`: zero accepted
iterations and goal history of length 1. -/
theorem C8_witness :
    (marqFull [1] [0] (fun p => [7 * p.headD 0]) (fun _ => [[1]]) ⟨1, true⟩
        ⟨10, true⟩ 1 1 (1 / 10 ^ 5) none none none).1
      = some (⟨[0], [-(5 : ℚ) / 2], [1]⟩, 0, true)
    ∧ (marq [1] [0] (fun p => [7 * p.headD 0]) (fun _ => [[1]]) ⟨1, true⟩
          ⟨10, true⟩ 1 1 (1 / 10 ^ 5) none none none
        = some ⟨[0], [-(5 : ℚ) / 2], [1]⟩
      ∧ (MarqResult.mk [0] [-(5 : ℚ) / 2] [1]).goal_p_it.length = 0 + 1
      ∧ 0 ≤ 1
      ∧ (1 = 1 → (MarqResult.mk [0] [-(5 : ℚ) / 2] [1]).goal_p_it.length = 1
          ∨ (MarqResult.mk [0] [-(5 : ℚ) / 2] [1]).goal_p_it.length = 2)) := by
  have h : (marqFull [1] [0] (fun p => [7 * p.headD 0]) (fun _ => [[1]])
      ⟨1, true⟩ ⟨10, true⟩ 1 1 (1 / 10 ^ 5) none none none).1
      = some (⟨[0], [-(5 : ℚ) / 2], [1]⟩, 0, true) := by
    norm_num [marqFull, marqLoop, innerLoop, defaultRegs, noRegNorm, noRegGrad,
      noRegHess, matMul, matVec, transpose, dotList, vecSub, vecAdd, scalMulVec,
      sqnorm, diagVec, addRowBroadcast, dampedHessian, linsys_solver, gaussSolve,
      pivotRows, elimStep, pyDiv, pyMul, abs_le, lmLow, lmHigh, List.range_succ, List.zipWith,
      List.getLastD, List.enum]
  exact ⟨h, C8_goal_history_length [1] [0] (fun p => [7 * p.headD 0])
    (fun _ => [[1]]) ⟨1, true⟩ ⟨10, true⟩ 1 1 (1 / 10 ^ 5) none none none
    _ 0 true h⟩

/-- Claim C10 (confirmed): when the inner damping search accepts (the only
case in which the relative-improvement test — whose divisor is the
previous accepted goal `lastGoal = goals[-2]` — executes), and the
regularization norm is everywhere non-negative, the accepted goal is
non-negative and strictly below `lastGoal`, hence the divisor is strictly
positive and the division-by-zero branch is unreachable. -/
theorem C10_convergence_divisor_positive (data : Vec) (func : Vec → Vec)
    (reg_norm : Vec → ℚ) (lmstep : PyNum) (hessian : Mat)
    (hessian_diag gradient prev : Vec) (lastGoal : ℚ) (fuel : Nat)
    (nx rs : Vec) (gl : ℚ) (lm : PyNum) (st : InnerState)
    (hreg : ∀ p, 0 ≤ reg_norm p)
    (h : (innerLoop data func reg_norm lmstep hessian hessian_diag gradient
        prev lastGoal fuel nx rs gl lm).1 = some st)
    (hst : st.stagnation = false) :
    0 ≤ st.goal ∧ st.goal < lastGoal ∧ 0 < lastGoal := by
  have hacc := innerLoop_accepts data func reg_norm lmstep hessian
    hessian_diag gradient prev lastGoal fuel nx rs gl lm st h hst
  have h0 : 0 ≤ st.goal := by
    rw [hacc.2.1]
    exact add_nonneg (sqnorm_nonneg _) (hreg _)
  exact ⟨h0, hacc.1, lt_of_le_of_lt h0 hacc.1⟩

/-- Witness for C10: a concrete accepted inner search with previous goal
`1`; the accepted goal is `10000/10201` and the divisor `1` is positive. -/
theorem C10_witness :
    (∀ p : Vec, 0 ≤ (fun _ => (0 : ℚ)) p)
    ∧ ((0 : ℚ) ≤ 10000 / 10201 ∧ (10000 / 10201 : ℚ) < 1 ∧ (0 : ℚ) < 1) := by
  have h : (innerLoop [1] (fun p => p) (fun _ => (0 : ℚ)) ⟨10, true⟩ [[1]]
      [1] [1] [0] 1 1 [0] [1] 0 ⟨100, true⟩).1
      = some ⟨[1 / 101], [100 / 101], 10000 / 10201, ⟨10, true⟩, false⟩ := by
    norm_num [innerLoop, dampedHessian, addRowBroadcast, scalMulVec,
      linsys_solver, gaussSolve, pivotRows, elimStep, dotList, vecAdd, vecSub,
      sqnorm, pyDiv, pyMul, lmLow, lmHigh, List.zipWith, List.getLastD]
  exact ⟨fun _ => le_refl 0,
    C10_convergence_divisor_positive [1] (fun p => p) (fun _ => (0 : ℚ))
      ⟨10, true⟩ [[1]] [1] [1] [0] 1 1 [0] [1] 0 ⟨100, true⟩ _
      (fun _ => le_refl 0) h rfl⟩

end GSolvers
